import Mathlib

/-!
Verification of the update-dispatch core of a Telegram bot library
(`api.go`: `RunLongPolling`, `handle`, `GetUpdates`, `CallMethod`).

The Go code is shallowly embedded:

* `Update` keeps only the field the dispatch core reads (`UpdateID`); the
  payload variants are opaque to the loop, which forwards the whole record
  to handlers, so they are irrelevant to offset/dispatch behaviour.
* Go `int` is modelled as `Int` (update identifiers are small positive
  numbers per the platform contract; no arithmetic here can overflow for
  realistic identifiers, and every claim is stated at this abstraction).
* A handler (`HandlerFunc func(*Bot, *Update) error`) is modelled by its
  observable behaviour on an update: `Update → Option String`
  (`none` = nil error, `some e` = non-nil error).  The `*Bot` argument is
  dropped: the loop passes the same bot to every call and the bot's
  dispatch-relevant state (token, handler list) is immutable during a run.
* Side effects (log lines, `time.Sleep`, the `GetUpdates` network call)
  become an explicit `Event` trace.
* The infinite `for` loop is run over a finite prefix of fetch results
  (`List FetchResult`), one entry per iteration of the outer loop.
-/

namespace TelegramBot

/-- An incoming update; only `update_id` is read by the dispatch core. -/
structure Update where
  updateID : Int
  deriving Repr, DecidableEq

/-- Observable behaviour of a Go `HandlerFunc` on a given update:
`none` models a nil error, `some e` a non-nil error. -/
def Handler : Type := Update → Option String

/-- Observable steps of the dispatch loop: the `GetUpdates` call with its
arguments, the two `log.Println` error events, `time.Sleep`, and each
handler invocation (by position in the chain). -/
inductive Event where
  | fetch (offset : Int) (limit : Nat) (timeout : Nat)
  | fetchError
  | sleep (seconds : Nat)
  | invoke (handlerIdx : Nat) (updateID : Int)
  | handlerError (updateID : Int)
  deriving Repr, DecidableEq

/-- One result of `e.GetUpdates(offset, 100, 120)`: either a non-nil error
(transport, decode or `ok:false`), or a batch of updates. -/
inductive FetchResult where
  | fetchFail
  | fetchOk (updates : List Update)
  deriving Repr, DecidableEq

/-- Embeds `Bot.handle` (api.go): run the chain in order from position `i`,
stopping at the first handler that returns a non-nil error, which is
logged.  Produces the event trace of the calls made. -/
def handleEventsFrom (handlers : List Handler) (i : Nat) (u : Update) :
    List Event :=
  match handlers with
  | [] => []
  | h :: rest =>
    match h u with
    | none => Event.invoke i u.updateID :: handleEventsFrom rest (i + 1) u
    | some _ => [Event.invoke i u.updateID, Event.handlerError u.updateID]

/-- `Bot.handle` starting from the head of the chain. -/
def handleEvents (handlers : List Handler) (u : Update) : List Event :=
  handleEventsFrom handlers 0 u

/-- Projection of an event to the index of the invoked handler, if any. -/
def invokedIdx : Event → Option Nat
  | Event.invoke i _ => some i
  | _ => none

/-- The chain positions invoked by `handle` for one update, in order. -/
def handleTrace (handlers : List Handler) (u : Update) : List Nat :=
  (handleEvents handlers u).filterMap invokedIdx

/-- Embeds the offset update in `RunLongPolling`:
`if offset < (update.UpdateID + 1) { offset = update.UpdateID + 1 }`. -/
def advanceOffset (offset : Int) (u : Update) : Int :=
  if offset < u.updateID + 1 then u.updateID + 1 else offset

/-- Embeds the inner `for _, update := range updates` loop of
`RunLongPolling`: call `handle`, then update the offset, sequentially in
batch order.  Returns the offset after the batch and the event trace. -/
def processBatch (handlers : List Handler) (offset : Int)
    (us : List Update) : Int × List Event :=
  match us with
  | [] => (offset, [])
  | u :: rest =>
    let evs := handleEvents handlers u
    let o' := advanceOffset offset u
    let p := processBatch handlers o' rest
    (p.1, evs ++ p.2)

/-- One iteration of the outer loop of `RunLongPolling` after the
`GetUpdates` call returned `r`: on error, log and sleep one second with
the offset unchanged; on success, process the batch. -/
def dispatchPass (handlers : List Handler) (offset : Int)
    (r : FetchResult) : Int × List Event :=
  match r with
  | FetchResult.fetchFail => (offset, [Event.fetchError, Event.sleep 1])
  | FetchResult.fetchOk us => processBatch handlers offset us

/-- `RunLongPolling`'s outer loop run over a finite prefix of fetch
results, starting from `offset`.  Each iteration records the
`GetUpdates(offset, 100, 120)` call it makes. -/
def runLoop (handlers : List Handler) (offset : Int)
    (rs : List FetchResult) : Int × List Event :=
  match rs with
  | [] => (offset, [])
  | r :: rest =>
    let p := dispatchPass handlers offset r
    let q := runLoop handlers p.1 rest
    (q.1, Event.fetch offset 100 120 :: (p.2 ++ q.2))

/-- `RunLongPolling` initialises `offset := 0`. -/
def runLongPolling (handlers : List Handler) (rs : List FetchResult) :
    Int × List Event :=
  runLoop handlers 0 rs

/-- The loop's offset after each iteration of the outer loop. -/
def offsetTrace (handlers : List Handler) (offset : Int)
    (rs : List FetchResult) : List Int :=
  match rs with
  | [] => []
  | r :: rest =>
    let o' := (dispatchPass handlers offset r).1
    o' :: offsetTrace handlers o' rest

/-- The handler-invocation events of a trace. -/
def invokeEvents (evs : List Event) : List Event :=
  evs.filter fun e =>
    match e with
    | Event.invoke _ _ => true
    | _ => false

/-- Largest `UpdateID` in a batch (`0` for the empty batch, which no claim
uses). -/
def batchMaxID : List Update → Int
  | [] => 0
  | u :: rest => rest.foldl (fun m v => max m v.updateID) u.updateID

/-! ### Embedding of the `GetUpdates` method binding

`GetUpdates` (api.go) calls `CallMethod`, then `json.Unmarshal`, then
checks the envelope's `ok` field.  The network and the JSON decoder are
external, so the binding is embedded as a function of their combined
outcome: `Except Unit (Option GetUpdatesResponse)` — `Except.error` for a
`CallMethod` failure, `Except.ok none` for a body `json.Unmarshal`
rejects, `Except.ok (some r)` for a decoded envelope `r`. -/

/-- The decoded `getUpdates` response envelope
(`{ok: bool, description: string, result: []Update}`). -/
structure GetUpdatesResponse where
  ok : Bool
  description : String
  result : List Update
  deriving Repr, DecidableEq

/-- The three failure kinds `GetUpdates` can surface: an error propagated
from `CallMethod`, a `json.Unmarshal` error, or `errors.New(description)`
built from an `ok:false` envelope. -/
inductive GetUpdatesError where
  | transportErr
  | decodeErr
  | apiErr (description : String)
  deriving Repr, DecidableEq

/-- Embeds the `GetUpdates` binding's control flow on the outcome of
`CallMethod` + `json.Unmarshal`. -/
def getUpdatesResult (outcome : Except Unit (Option GetUpdatesResponse)) :
    Except GetUpdatesError (List Update) :=
  match outcome with
  | Except.error _ => Except.error GetUpdatesError.transportErr
  | Except.ok none => Except.error GetUpdatesError.decodeErr
  | Except.ok (some r) =>
    if r.ok then Except.ok r.result
    else Except.error (GetUpdatesError.apiErr r.description)

/-! ### Relational small-step semantics of the loop, for determinism -/

/-- One outer-loop iteration as a relation between the offset before, the
fetch result, the offset after, and the events of the iteration. -/
inductive PassStep (handlers : List Handler) :
    Int → FetchResult → Int → List Event → Prop where
  | fail (o : Int) :
      PassStep handlers o FetchResult.fetchFail o
        [Event.fetch o 100 120, Event.fetchError, Event.sleep 1]
  | ok (o : Int) (us : List Update) :
      PassStep handlers o (FetchResult.fetchOk us)
        (processBatch handlers o us).1
        (Event.fetch o 100 120 :: (processBatch handlers o us).2)

/-- A run of the loop over a list of fetch results, recording the offset
after each pass and the concatenated event trace. -/
inductive RunSeq (handlers : List Handler) :
    Int → List FetchResult → List Int → List Event → Prop where
  | nil (o : Int) : RunSeq handlers o [] [] []
  | cons {o o2 : Int} {r : FetchResult} {rs : List FetchResult}
      {offs : List Int} {evs1 evs2 : List Event} :
      PassStep handlers o r o2 evs1 →
      RunSeq handlers o2 rs offs evs2 →
      RunSeq handlers o (r :: rs) (o2 :: offs) (evs1 ++ evs2)

/-! ### Helper lemmas -/

/-- The `if`-guarded offset update is exactly a `max`. -/
lemma advanceOffset_eq_max (o : Int) (u : Update) :
    advanceOffset o u = max o (u.updateID + 1) := by
  unfold advanceOffset
  rcases le_or_lt (u.updateID + 1) o with h | h
  · rw [if_neg (not_lt.mpr h), max_eq_left h]
  · rw [if_pos h, max_eq_right h.le]

/-- The offset returned by `processBatch` is a fold of `advanceOffset`
and does not depend on the handlers. -/
lemma processBatch_fst (handlers : List Handler) (o : Int)
    (us : List Update) :
    (processBatch handlers o us).1 =
      us.foldl (fun a u => max a (u.updateID + 1)) o := by
  induction us generalizing o with
  | nil => rfl
  | cons u rest ih =>
    simp only [processBatch, List.foldl_cons, advanceOffset_eq_max, ih]

/-- Adding one distributes over `max` on `Int`. -/
lemma max_add_one (a b : Int) : max a b + 1 = max (a + 1) (b + 1) := by
  rcases le_total a b with h | h
  · rw [max_eq_right h, max_eq_right (by omega)]
  · rw [max_eq_left h, max_eq_left (by omega)]

/-- Folding the offset update over a batch computes `max` of the start
and one past the largest identifier. -/
lemma foldl_advance_max (us : List Update) :
    ∀ o m : Int,
      us.foldl (fun a u => max a (u.updateID + 1)) (max o (m + 1)) =
        max o (us.foldl (fun a u => max a u.updateID) m + 1) := by
  induction us with
  | nil => intro o m; rfl
  | cons u rest ih =>
    intro o m
    simp only [List.foldl_cons]
    rw [max_assoc, ← max_add_one, ih]

/-- The offset fold never decreases below its start. -/
lemma le_foldl_advance (us : List Update) :
    ∀ o : Int, o ≤ us.foldl (fun a u => max a (u.updateID + 1)) o := by
  induction us with
  | nil => intro o; exact le_refl o
  | cons u rest ih =>
    intro o
    simp only [List.foldl_cons]
    exact le_trans (le_max_left o (u.updateID + 1)) (ih _)

/-- A single dispatch pass never decreases the offset. -/
lemma le_dispatchPass (handlers : List Handler) (o : Int) (r : FetchResult) :
    o ≤ (dispatchPass handlers o r).1 := by
  cases r with
  | fetchFail => exact le_refl o
  | fetchOk us =>
    simpa [dispatchPass, processBatch_fst] using le_foldl_advance us o

/-- The offset fold is invariant under permutation of the batch. -/
lemma foldl_advance_perm {us1 us2 : List Update} (hperm : us1.Perm us2) :
    ∀ o : Int,
      us1.foldl (fun a u => max a (u.updateID + 1)) o =
        us2.foldl (fun a u => max a (u.updateID + 1)) o := by
  induction hperm with
  | nil => intro o; rfl
  | cons x _ ih => intro o; simp only [List.foldl_cons]; exact ih _
  | swap x y l => intro o; simp only [List.foldl_cons]; rw [sup_right_comm]
  | trans _ _ ih1 ih2 => intro o; rw [ih1, ih2]

/-- Whether an event is a well-formed fetch call: a `GetUpdates` call must
carry `limit = 100` and `timeout = 120`; other events pass vacuously. -/
def fetchParamsOK : Event → Bool
  | Event.fetch _ l t => l == 100 && t == 120
  | _ => true

/-- `handle` emits no fetch events. -/
lemma handleEventsFrom_params (hs : List Handler) (i : Nat) (u : Update) :
    ∀ e ∈ handleEventsFrom hs i u, fetchParamsOK e = true := by
  induction hs generalizing i with
  | nil => intro e he; simp [handleEventsFrom] at he
  | cons h rest ih =>
    intro e he
    unfold handleEventsFrom at he
    cases hu : h u with
    | none =>
      rw [hu] at he
      rcases List.mem_cons.mp he with he | he
      · subst he; rfl
      · exact ih (i + 1) e he
    | some s =>
      rw [hu] at he
      rcases List.mem_cons.mp he with he | he
      · subst he; rfl
      · rcases List.mem_cons.mp he with he | he
        · subst he; rfl
        · simp at he

/-- `processBatch` emits no fetch events. -/
lemma processBatch_params (hs : List Handler) (o : Int) (us : List Update) :
    ∀ e ∈ (processBatch hs o us).2, fetchParamsOK e = true := by
  induction us generalizing o with
  | nil => intro e he; simp [processBatch] at he
  | cons u rest ih =>
    intro e he
    unfold processBatch at he
    rcases List.mem_append.mp he with he | he
    · exact handleEventsFrom_params hs 0 u e he
    · exact ih _ e he

/-- A dispatch pass emits no fetch events. -/
lemma dispatchPass_params (hs : List Handler) (o : Int) (r : FetchResult) :
    ∀ e ∈ (dispatchPass hs o r).2, fetchParamsOK e = true := by
  cases r with
  | fetchFail =>
    intro e he
    rcases List.mem_cons.mp he with he | he
    · subst he; rfl
    · rcases List.mem_cons.mp he with he | he
      · subst he; rfl
      · simp at he
  | fetchOk us => exact processBatch_params hs o us

/-- Every fetch event emitted by the loop carries `limit = 100` and
`timeout = 120`. -/
lemma runLoop_params (rs : List FetchResult) (hs : List Handler) :
    ∀ o : Int, ∀ e ∈ (runLoop hs o rs).2, fetchParamsOK e = true := by
  induction rs with
  | nil => intro o e he; simp [runLoop] at he
  | cons r rest ih =>
    intro o e he
    unfold runLoop at he
    rcases List.mem_cons.mp he with he | he
    · subst he; rfl
    · rcases List.mem_append.mp he with he | he
      · exact dispatchPass_params hs o r e he
      · exact ih _ e he

/-- A single pass of the relational semantics is a function of the
pre-offset and the fetch result. -/
lemma passStep_deterministic {handlers : List Handler} {o : Int}
    {r : FetchResult} {o1 o2 : Int} {e1 e2 : List Event}
    (h1 : PassStep handlers o r o1 e1) (h2 : PassStep handlers o r o2 e2) :
    o1 = o2 ∧ e1 = e2 := by
  cases h1 <;> cases h2 <;> exact ⟨rfl, rfl⟩

/-- Concrete handlers used in closed witness statements. -/
def hNone : Handler := fun _ => none

/-- A handler that always reports the error `"boom"`. -/
def hFailBoom : Handler := fun _ => some "boom"

/-- The always-succeeding counting handler of the spec's concrete
scenario; its invocations are counted through the event trace. -/
def counterHandler : Handler := fun _ => none

/-! ### Claim theorems -/

/-- Claim C1: after the handler chain for an update completes, the loop's
offset becomes `max(offset, UpdateID + 1)`; this happens per update,
unconditionally, for every handler chain (hence regardless of whether any
handler returned an error). -/
theorem offset_advance_unconditional (handlers : List Handler) (o : Int)
    (u : Update) (us : List Update) :
    advanceOffset o u = max o (u.updateID + 1) ∧
    (processBatch handlers o [u]).1 = max o (u.updateID + 1) ∧
    (processBatch handlers o (u :: us)).1 =
      (processBatch handlers (max o (u.updateID + 1)) us).1 := by
  refine ⟨advanceOffset_eq_max o u, ?_, ?_⟩
  · simp [processBatch, advanceOffset_eq_max]
  · simp only [processBatch, advanceOffset_eq_max]

/-- Claim C2: in a chain `[h1, h2, h3]` where `h1` succeeds and `h2` fails
on update `u`, dispatching `u` invokes exactly positions `0` and `1`
(each once, `h3` never); on any other update the chain starts again from
position `0`. -/
theorem handler_short_circuit (h1 h2 h3 : Handler) (u u2 : Update)
    (e : String) (hh1 : h1 u = none) (hh2 : h2 u = some e) :
    handleTrace [h1, h2, h3] u = [0, 1] ∧
    (handleTrace [h1, h2, h3] u2).head? = some 0 := by
  constructor
  · simp [handleTrace, handleEvents, handleEventsFrom, hh1, hh2, invokedIdx]
  · cases hu : h1 u2 with
    | none =>
      simp [handleTrace, handleEvents, handleEventsFrom, hu, invokedIdx]
    | some s =>
      simp [handleTrace, handleEvents, handleEventsFrom, hu, invokedIdx]

/-- Witness for C2 at a concrete chain and concrete updates. -/
theorem handler_short_circuit_witness :
    handleTrace [hNone, hFailBoom, hNone] ⟨10⟩ = [0, 1] ∧
    (handleTrace [hNone, hFailBoom, hNone] ⟨11⟩).head? = some 0 :=
  handler_short_circuit hNone hFailBoom hNone ⟨10⟩ ⟨11⟩ "boom" rfl rfl

/-- Claim C3 counterexample: feeding the loop the fetch results
`[[update 10]], [[update 5]]` (which the quantifier "for any sequence of
fetch results" admits) leaves the offset at `11` after the second batch,
whose maximum `UpdateID` is `M = 5`, so the offset is not `M + 1 = 6`. -/
theorem offset_eq_max_plus_one_cex :
    (runLongPolling []
        [FetchResult.fetchOk [⟨10⟩], FetchResult.fetchOk [⟨5⟩]]).1 = 11 ∧
    batchMaxID [⟨5⟩] = 5 ∧ (11 : Int) ≠ 5 + 1 := by
  refine ⟨rfl, rfl, by decide⟩

/-- Claim C3 (amended): the offset is non-decreasing across dispatch
passes, and after processing a non-empty batch from offset `o` the offset
equals `max o (M + 1)` where `M` is the batch's maximum `UpdateID` (hence
`M + 1` whenever the batch's identifiers are at least the current offset,
as the platform contract guarantees). -/
theorem offset_monotone_batch_max (handlers : List Handler) (o : Int)
    (rs : List FetchResult) (u : Update) (us : List Update) :
    List.Chain' (· ≤ ·) (o :: offsetTrace handlers o rs) ∧
    (processBatch handlers o (u :: us)).1 =
      max o (batchMaxID (u :: us) + 1) := by
  constructor
  · induction rs generalizing o with
    | nil => simp [offsetTrace]
    | cons r rest ih =>
      rw [offsetTrace, List.chain'_cons]
      exact ⟨le_dispatchPass handlers o r, ih _⟩
  · rw [processBatch_fst, List.foldl_cons, foldl_advance_max us o u.updateID]
    rfl

/-- Claim C4: a failed fetch logs, sleeps one second and leaves the offset
unchanged; any number `n` of consecutive fetch failures before a
successful fetch leaves both the final offset and the handler-invocation
trace exactly as if the successful fetch had come first — no updates are
skipped and the loop keeps running. -/
theorem fetch_error_retry (handlers : List Handler) (o : Int) (n : Nat)
    (us : List Update) (rest : List FetchResult) :
    dispatchPass handlers o FetchResult.fetchFail =
      (o, [Event.fetchError, Event.sleep 1]) ∧
    (runLoop handlers o (List.replicate n FetchResult.fetchFail ++
        (FetchResult.fetchOk us :: rest))).1 =
      (runLoop handlers o (FetchResult.fetchOk us :: rest)).1 ∧
    invokeEvents (runLoop handlers o (List.replicate n FetchResult.fetchFail ++
        (FetchResult.fetchOk us :: rest))).2 =
      invokeEvents (runLoop handlers o (FetchResult.fetchOk us :: rest)).2 := by
  refine ⟨rfl, ?_⟩
  induction n with
  | zero => exact ⟨rfl, rfl⟩
  | succ k ih =>
    rw [List.replicate_succ, List.cons_append]
    constructor
    · rw [runLoop]
      exact ih.1
    · rw [runLoop]
      simp only [dispatchPass, invokeEvents, List.filter_cons, List.filter_append]
      exact ih.2

/-- Claim C5: a successful fetch with an empty batch invokes no handler,
emits no sleep, leaves the offset unchanged and the loop proceeds
directly to the next fetch. -/
theorem empty_batch_noop (handlers : List Handler) (o : Int)
    (rs : List FetchResult) :
    dispatchPass handlers o (FetchResult.fetchOk []) = (o, []) ∧
    runLoop handlers o (FetchResult.fetchOk [] :: rs) =
      ((runLoop handlers o rs).1,
        Event.fetch o 100 120 :: (runLoop handlers o rs).2) := by
  exact ⟨rfl, rfl⟩

/-- Claim C6: the `GetUpdates` binding turns an `ok:false` envelope into
an error carrying the envelope's description verbatim (and no updates),
returns the envelope's `result` when `ok` is true, and turns a malformed
body into a decode error distinct from every `ok:false` error. -/
theorem getUpdates_envelope (desc d : String) (us : List Update) :
    getUpdatesResult (Except.ok (some (GetUpdatesResponse.mk false desc us))) =
      Except.error (GetUpdatesError.apiErr desc) ∧
    getUpdatesResult (Except.ok (some (GetUpdatesResponse.mk true desc us))) =
      Except.ok us ∧
    getUpdatesResult (Except.ok none) =
      Except.error GetUpdatesError.decodeErr ∧
    GetUpdatesError.decodeErr ≠ GetUpdatesError.apiErr d := by
  refine ⟨rfl, rfl, rfl, ?_⟩
  intro h
  exact GetUpdatesError.noConfusion h

/-- Witness for C6 at a concrete envelope. -/
theorem getUpdates_envelope_witness :
    getUpdatesResult (Except.ok (some (GetUpdatesResponse.mk false "bad" []))) =
      Except.error (GetUpdatesError.apiErr "bad") ∧
    getUpdatesResult (Except.ok (some (GetUpdatesResponse.mk true "bad" []))) =
      Except.ok [] ∧
    getUpdatesResult (Except.ok none) =
      Except.error GetUpdatesError.decodeErr ∧
    GetUpdatesError.decodeErr ≠ GetUpdatesError.apiErr "bad" :=
  getUpdates_envelope "bad" "bad" []

/-- Claim C7: with the single counting handler and the fetch batches
`[[10]], [], [[11],[12]]`, the loop's final offset is `13` and its trace
shows exactly three handler invocations, none of them between the second
and third fetch (the empty batch invokes no handler). -/
theorem scenario_three_batches :
    runLongPolling [counterHandler]
        [FetchResult.fetchOk [⟨10⟩], FetchResult.fetchOk [],
         FetchResult.fetchOk [⟨11⟩, ⟨12⟩]] =
      (13, [Event.fetch 0 100 120, Event.invoke 0 10,
            Event.fetch 11 100 120,
            Event.fetch 11 100 120, Event.invoke 0 11, Event.invoke 0 12]) ∧
    (invokeEvents (runLongPolling [counterHandler]
        [FetchResult.fetchOk [⟨10⟩], FetchResult.fetchOk [],
         FetchResult.fetchOk [⟨11⟩, ⟨12⟩]]).2).length = 3 ∧
    invokeEvents (dispatchPass [counterHandler] 11
        (FetchResult.fetchOk [])).2 = [] := by
  exact ⟨rfl, rfl, rfl⟩

/-- Claim C8: the loop starts from `offset = 0`, its first fetch is
`GetUpdates(0, 100, 120)`, and every fetch event it ever emits carries
`limit = 100` and `timeout = 120`. -/
theorem polling_initial_offset_and_params (handlers : List Handler)
    (rs : List FetchResult) (r : FetchResult) (rs2 : List FetchResult) :
    (runLongPolling handlers rs).2.all fetchParamsOK = true ∧
    (runLongPolling handlers (r :: rs2)).2.head? =
      some (Event.fetch 0 100 120) := by
  constructor
  · exact List.all_eq_true.mpr (runLoop_params rs handlers 0)
  · rfl

/-- Claim C9: the loop's relational small-step semantics is
deterministic — two runs over the same fetch results with the same
handlers produce the same per-pass offsets and the same event trace
(hence the same handler invocations in the same order). -/
theorem run_deterministic (handlers : List Handler) (o : Int)
    (rs : List FetchResult) (offs1 offs2 : List Int)
    (evs1 evs2 : List Event)
    (h1 : RunSeq handlers o rs offs1 evs1)
    (h2 : RunSeq handlers o rs offs2 evs2) :
    offs1 = offs2 ∧ evs1 = evs2 := by
  induction h1 generalizing offs2 evs2 with
  | nil o =>
    cases h2
    exact ⟨rfl, rfl⟩
  | cons hstep hrest ih =>
    cases h2 with
    | cons hstep2 hrest2 =>
      obtain ⟨ho, he⟩ := passStep_deterministic hstep hstep2
      subst ho
      obtain ⟨hoffs, hevs⟩ := ih _ _ hrest2
      rw [he, hoffs, hevs]
      exact ⟨rfl, rfl⟩

/-- Witness for C9: two concrete derivations of a one-pass run agree. -/
theorem run_deterministic_witness :
    ([(processBatch [counterHandler] 0 [⟨10⟩]).1] =
        [(processBatch [counterHandler] 0 [⟨10⟩]).1]) ∧
    ((Event.fetch 0 100 120 :: (processBatch [counterHandler] 0 [⟨10⟩]).2)
        ++ [] =
      (Event.fetch 0 100 120 :: (processBatch [counterHandler] 0 [⟨10⟩]).2)
        ++ []) :=
  run_deterministic [counterHandler] 0 [FetchResult.fetchOk [⟨10⟩]] _ _ _ _
    (RunSeq.cons (PassStep.ok 0 [⟨10⟩]) (RunSeq.nil _))
    (RunSeq.cons (PassStep.ok 0 [⟨10⟩]) (RunSeq.nil _))

/-- Claim C10: the offset produced by a batch does not depend on the
order of the updates in it: permuted batches yield equal offsets, and a
non-empty batch from offset `o` always yields
`max o (maximum UpdateID + 1)`. -/
theorem offset_perm_invariant (handlers : List Handler) (o : Int)
    (us1 us2 : List Update) (u : Update) (us : List Update)
    (hperm : us1.Perm us2) :
    (processBatch handlers o us1).1 = (processBatch handlers o us2).1 ∧
    (processBatch handlers o (u :: us)).1 =
      max o (batchMaxID (u :: us) + 1) := by
  constructor
  · rw [processBatch_fst, processBatch_fst]
    exact foldl_advance_perm hperm o
  · rw [processBatch_fst, List.foldl_cons, foldl_advance_max us o u.updateID]
    rfl

/-- Witness for C10 at a concrete permuted pair of batches. -/
theorem offset_perm_invariant_witness :
    (processBatch [] 0 [⟨1⟩, ⟨2⟩]).1 = (processBatch [] 0 [⟨2⟩, ⟨1⟩]).1 ∧
    (processBatch [] 0 [⟨5⟩]).1 = max 0 (batchMaxID [⟨5⟩] + 1) :=
  offset_perm_invariant [] 0 [⟨1⟩, ⟨2⟩] [⟨2⟩, ⟨1⟩] ⟨5⟩ [] (by decide)

end TelegramBot
